import Mathlib

/-!
# Shallow embedding of the reference-counting garbage collector

This file models `gc_details.h`: the `PtrDetails<T>` record, and the
`Pointer<T, size>` template with its static per-specialization
`refContainer` (a `std::list<PtrDetails<T>>`), its constructors,
destructor, assignment operators, `collect` and `shutdown`.

Modelling conventions:
* raw addresses (`T *`) are natural numbers; `0` plays the role of `NULL`;
* the per-specialization registry `refContainer` is a `List PtrDetails`;
* the C++ `unsigned` reference counter is a natural number reduced
  modulo `2 ^ 32` on increment and decrement;
* code paths that dereference a possibly-end iterator returned by
  `findPtrInfo` without checking it (the copy constructor, the
  destructor, and `operator=(Pointer&)`) are undefined behaviour when the
  record is absent; such operations return `Option` and yield `none`
  exactly on those paths;
* `delete` / `delete[]` calls performed by `collect` are observed as a
  list of `(address, is-array-form)` pairs in the result.
-/

/-- Modulus of the C++ `unsigned` type: `2 ^ 32`. -/
def UINT_MOD : Nat := 4294967296

/-- `refCount++` on an `unsigned` counter. -/
def uinc (c : Nat) : Nat := (c + 1) % UINT_MOD

/-- `refCount--` on an `unsigned` counter: adding `2 ^ 32 - 1` and
reducing modulo `2 ^ 32` is the unsigned wrap-around decrement. -/
def udec (c : Nat) : Nat := (c + 4294967295) % UINT_MOD

/-- One element of the garbage-collection information list
(`class PtrDetails`, fields in source order). -/
structure PtrDetails where
  refCount : Nat
  memPtr : Nat
  isArray : Bool
  arraySize : Nat
deriving DecidableEq

/-- The constructor `PtrDetails(T * ptr, unsigned size = 0)`: refcount 1,
array flag set iff `size > 0`. -/
def PtrDetails.make (ptr : Nat) (size : Nat) : PtrDetails :=
  { refCount := 1, memPtr := ptr, isArray := decide (size > 0), arraySize := size }

/-- `upRefCount()`. -/
def PtrDetails.upRefCount (d : PtrDetails) : PtrDetails :=
  { d with refCount := uinc d.refCount }

/-- `downRefCount()`. -/
def PtrDetails.downRefCount (d : PtrDetails) : PtrDetails :=
  { d with refCount := udec d.refCount }

/-- `zeroRefCount()`. -/
def PtrDetails.zeroRefCount (d : PtrDetails) : Bool :=
  d.refCount == 0

/-- `Pointer<T,size>::findPtrInfo(T *ptr)`: linear scan of `refContainer`
for the first record whose `memPtr` equals `ptr`; `none` models the end
iterator. -/
def findPtrInfo (R : List PtrDetails) (ptr : Nat) : Option PtrDetails :=
  R.find? fun d => d.memPtr == ptr

/-- Mutation through the iterator returned by `findPtrInfo`: apply `f`
to the first record whose `memPtr` equals `a`, leave the rest alone. -/
def updateFirst (f : PtrDetails → PtrDetails) : List PtrDetails → Nat → List PtrDetails
  | [], _ => []
  | d :: rest, a => if d.memPtr == a then f d :: rest else d :: updateFirst f rest a

/-- Result of one `collect()` pass: the surviving `refContainer`, the
sequence of deallocation calls `(address, array-form?)` issued, and the
returned `memfreed` flag. -/
structure CollectResult where
  registry : List PtrDetails
  freed : List (Nat × Bool)
  memfreed : Bool
deriving DecidableEq

/-- `Pointer<T,size>::collect()`: one pass over `refContainer`; every
record with `zeroRefCount()` is deallocated (`delete[]` if `isArray`,
`delete` otherwise) and erased; returns whether memory was freed. -/
def collect : List PtrDetails → CollectResult
  | [] => ⟨[], [], false⟩
  | d :: rest =>
    if d.zeroRefCount then
      let r := collect rest
      ⟨r.registry, (d.memPtr, d.isArray) :: r.freed, true⟩
    else
      let r := collect rest
      ⟨d :: r.registry, r.freed, r.memfreed⟩

/-- The per-object fields of `Pointer<T,size>`: `addr`, `isArray`,
`arraySize` (source order). -/
structure Handle where
  addr : Nat
  isArray : Bool
  arraySize : Nat
deriving DecidableEq

/-- `Pointer<T,size>::Pointer(T * t)`: register `t` in `refContainer`
(increment the existing record, emplace a fresh one otherwise) and set
the member fields.  The `atexit(shutdown)` registration guarded by
`first` is an external-interface effect and carries no registry state.
`size` is the template parameter. -/
def constructRaw (size : Nat) (t : Nat) (R : List PtrDetails) :
    Handle × List PtrDetails :=
  let R2 :=
    match findPtrInfo R t with
    | some _ => updateFirst PtrDetails.upRefCount R t
    | none => R ++ [PtrDetails.make t size]
  ({ addr := t, isArray := decide (size > 0), arraySize := size }, R2)

/-- `Pointer<T,size>::Pointer(const Pointer &ob)`: `findPtrInfo(ob.addr)`
then `p->upRefCount()` with no end-iterator check; `none` marks the
undefined behaviour when no record exists. -/
def copyConstruct (ob : Handle) (R : List PtrDetails) :
    Option (Handle × List PtrDetails) :=
  match findPtrInfo R ob.addr with
  | none => none
  | some _ =>
    some ({ addr := ob.addr, isArray := ob.isArray, arraySize := ob.arraySize },
      updateFirst PtrDetails.upRefCount R ob.addr)

/-- `Pointer<T,size>::~Pointer()`: `findPtrInfo(addr)` then
`p->downRefCount()` with no end-iterator check (`none` marks that
undefined behaviour), followed unconditionally by `collect()`. -/
def destruct (h : Handle) (R : List PtrDetails) : Option CollectResult :=
  match findPtrInfo R h.addr with
  | none => none
  | some _ => some (collect (updateFirst PtrDetails.downRefCount R h.addr))

/-- `Pointer<T,size>::operator=(T *t)`: decrement the record of the old
address if one exists (checked, silently skipped otherwise), then
increment-or-emplace a record for `t`, update the member fields and
return `t`.  No `collect()` runs on this path. -/
def assignRaw (size : Nat) (h : Handle) (t : Nat) (R : List PtrDetails) :
    Handle × Nat × List PtrDetails :=
  let R1 :=
    match findPtrInfo R h.addr with
    | some _ => updateFirst PtrDetails.downRefCount R h.addr
    | none => R
  let R2 :=
    match findPtrInfo R1 t with
    | none => R1 ++ [PtrDetails.make t size]
    | some _ => updateFirst PtrDetails.upRefCount R1 t
  ({ addr := t, isArray := decide (size > 0), arraySize := size }, t, R2)

/-- `Pointer<T,size>::operator=(Pointer &rv)`: the guard `*this != rv`
compares the two objects through `operator T*()`, i.e. by address.  In
the non-equal case it decrements the record of the own address and
increments the record of `rv`'s address, both through unchecked
iterators (`none` marks the undefined behaviour when absent), then
copies `rv`'s fields.  No `collect()` runs on this path. -/
def assignHandle (h rv : Handle) (R : List PtrDetails) :
    Option (Handle × List PtrDetails) :=
  if h.addr = rv.addr then
    some (h, R)
  else
    match findPtrInfo R h.addr with
    | none => none
    | some _ =>
      let R1 := updateFirst PtrDetails.downRefCount R h.addr
      match findPtrInfo R1 rv.addr with
      | none => none
      | some _ =>
        some ({ addr := rv.addr, isArray := rv.isArray, arraySize := rv.arraySize },
          updateFirst PtrDetails.upRefCount R1 rv.addr)

/-- `Pointer<T,size>::shutdown()`: return at once if `refContainer` is
empty, otherwise set every record's `refCount` to `0` and `collect()`. -/
def shutdown (R : List PtrDetails) : CollectResult :=
  if R.length = 0 then ⟨R, [], false⟩
  else collect (R.map fun d => { d with refCount := 0 })

/-- `Pointer() { Pointer(NULL); }`: the body constructs and immediately
destroys an unnamed temporary `Pointer` over `NULL`; the members of the
object actually under construction are never assigned.  The `garbage`
argument stands for the indeterminate contents those members keep. -/
def defaultCtor (size : Nat) (garbage : Handle) (R : List PtrDetails) :
    Handle × Option CollectResult :=
  let c := constructRaw size 0 R
  (garbage, destruct c.1 c.2)

/-- State of one specialization's world: the live `Pointer` objects (in
construction order) and the specialization's `refContainer`. -/
structure GCState where
  handles : List Handle
  registry : List PtrDetails
deriving DecidableEq

/-- The operations of the `Pointer` lifecycle, acting on live handles by
position: `Pointer(T*)`, the copy constructor, the destructor,
`operator=(T*)`, `operator=(Pointer&)`, and an explicit `collect()`. -/
inductive GCOp where
  | construct (t : Nat)
  | copyFrom (i : Nat)
  | destroy (i : Nat)
  | assignRawTo (i : Nat) (t : Nat)
  | assignFrom (i : Nat) (j : Nat)
  | sweep
deriving DecidableEq

/-- One operation on the state.  `none` is an invalid script (an index
with no live handle) or an execution that hits one of the unchecked
iterator dereferences. -/
def step (size : Nat) (s : GCState) : GCOp → Option GCState
  | .construct t =>
    let c := constructRaw size t s.registry
    some ⟨s.handles ++ [c.1], c.2⟩
  | .copyFrom i =>
    match s.handles[i]? with
    | none => none
    | some ob =>
      match copyConstruct ob s.registry with
      | none => none
      | some c => some ⟨s.handles ++ [c.1], c.2⟩
  | .destroy i =>
    match s.handles[i]? with
    | none => none
    | some h =>
      match destruct h s.registry with
      | none => none
      | some res => some ⟨s.handles.eraseIdx i, res.registry⟩
  | .assignRawTo i t =>
    match s.handles[i]? with
    | none => none
    | some h =>
      let c := assignRaw size h t s.registry
      some ⟨s.handles.set i c.1, c.2.2⟩
  | .assignFrom i j =>
    match s.handles[i]?, s.handles[j]? with
    | some h, some rv =>
      match assignHandle h rv s.registry with
      | none => none
      | some c => some ⟨s.handles.set i c.1, c.2⟩
    | _, _ => none
  | .sweep => some ⟨s.handles, (collect s.registry).registry⟩

/-- Run a script from a given state. -/
def runFrom (size : Nat) (s : GCState) : List GCOp → Option GCState
  | [] => some s
  | op :: ops =>
    match step size s op with
    | none => none
    | some s2 => runFrom size s2 ops

/-- Run a script from the initial state: no live handles, empty
`refContainer`. -/
def run (size : Nat) (ops : List GCOp) : Option GCState :=
  runFrom size ⟨[], []⟩ ops

/-- Number of live handles currently holding address `a`. -/
def count (hs : List Handle) (a : Nat) : Nat :=
  hs.countP fun h => h.addr == a

/-- The registry/handle coherence invariant: every record's refcount is
the number of live handles at its address, every live handle's address
has a record, and addresses are pairwise distinct in the registry. -/
def GCInv (s : GCState) : Prop :=
  (∀ d ∈ s.registry, d.refCount = count s.handles d.memPtr) ∧
  (∀ h ∈ s.handles, h.addr ∈ s.registry.map PtrDetails.memPtr) ∧
  (s.registry.map PtrDetails.memPtr).Nodup

/-! ## Arithmetic facts about the `unsigned` counter -/

theorem uinc_eq {c : Nat} (h : c + 1 < UINT_MOD) : uinc c = c + 1 := by
  simp only [uinc, UINT_MOD] at *
  omega

theorem udec_eq {c : Nat} (h1 : 1 ≤ c) (h2 : c < UINT_MOD) : udec c = c - 1 := by
  simp only [udec, UINT_MOD] at *
  omega

/-! ## Projection lemmas -/

theorem upRefCount_memPtr (d : PtrDetails) :
    (PtrDetails.upRefCount d).memPtr = d.memPtr := by
  cases d; rfl

theorem upRefCount_refCount (d : PtrDetails) :
    (PtrDetails.upRefCount d).refCount = uinc d.refCount := by
  cases d; rfl

theorem downRefCount_memPtr (d : PtrDetails) :
    (PtrDetails.downRefCount d).memPtr = d.memPtr := by
  cases d; rfl

theorem downRefCount_refCount (d : PtrDetails) :
    (PtrDetails.downRefCount d).refCount = udec d.refCount := by
  cases d; rfl

/-! ## Lookup lemmas -/

theorem findPtrInfo_eq_none {R : List PtrDetails} {a : Nat} :
    findPtrInfo R a = none ↔ a ∉ R.map PtrDetails.memPtr := by
  simp only [findPtrInfo, List.find?_eq_none, List.mem_map, beq_iff_eq]
  constructor
  · rintro h ⟨d, hd, rfl⟩
    exact h d hd rfl
  · intro h d hd he
    exact h ⟨d, hd, he⟩

theorem findPtrInfo_some {R : List PtrDetails} {a : Nat} {d : PtrDetails}
    (h : findPtrInfo R a = some d) : d ∈ R ∧ d.memPtr = a := by
  refine ⟨List.mem_of_find?_eq_some h, ?_⟩
  have := List.find?_some h
  simpa [beq_iff_eq] using this

theorem findPtrInfo_isSome_of_mem {R : List PtrDetails} {a : Nat}
    (h : a ∈ R.map PtrDetails.memPtr) :
    ∃ d, findPtrInfo R a = some d ∧ d ∈ R ∧ d.memPtr = a := by
  cases hfind : findPtrInfo R a with
  | none => exact absurd (findPtrInfo_eq_none.mp hfind) (by simpa using h)
  | some d => exact ⟨d, rfl, findPtrInfo_some hfind⟩

/-! ## `updateFirst` lemmas -/

theorem updateFirst_map_memPtr {f : PtrDetails → PtrDetails}
    (hf : ∀ d, (f d).memPtr = d.memPtr) (R : List PtrDetails) (a : Nat) :
    (updateFirst f R a).map PtrDetails.memPtr = R.map PtrDetails.memPtr := by
  induction R with
  | nil => rfl
  | cons d rest ih =>
    by_cases hd : d.memPtr = a
    · simp [updateFirst, hd, hf]
    · simp [updateFirst, hd, ih]

theorem updateFirst_of_not_mem {f : PtrDetails → PtrDetails} {R : List PtrDetails}
    {a : Nat} (h : a ∉ R.map PtrDetails.memPtr) : updateFirst f R a = R := by
  induction R with
  | nil => rfl
  | cons d rest ih =>
    simp only [List.map_cons, List.mem_cons, not_or] at h
    simp [updateFirst, Ne.symm h.1, ih h.2]

theorem findPtrInfo_updateFirst_self {f : PtrDetails → PtrDetails}
    (hf : ∀ d, (f d).memPtr = d.memPtr) (R : List PtrDetails) (a : Nat) :
    findPtrInfo (updateFirst f R a) a = (findPtrInfo R a).map f := by
  induction R with
  | nil => rfl
  | cons d rest ih =>
    by_cases hd : d.memPtr = a
    · simp [updateFirst, findPtrInfo, hd, hf, List.find?]
    · have hb : (d.memPtr == a) = false := by
        simp only [beq_eq_false_iff_ne]; exact hd
      simp only [updateFirst, hb, Bool.false_eq_true, if_false, findPtrInfo,
        List.find?]
      exact ih

theorem findPtrInfo_updateFirst_ne {f : PtrDetails → PtrDetails}
    (hf : ∀ d, (f d).memPtr = d.memPtr) (R : List PtrDetails) {a b : Nat}
    (hba : b ≠ a) : findPtrInfo (updateFirst f R a) b = findPtrInfo R b := by
  induction R with
  | nil => rfl
  | cons d rest ih =>
    by_cases hd : d.memPtr = a
    · have h2 : ((f d).memPtr == b) = false := by
        simp only [beq_eq_false_iff_ne, hf, hd]; exact Ne.symm hba
      have h3 : (d.memPtr == b) = false := by
        simp only [beq_eq_false_iff_ne, hd]; exact Ne.symm hba
      have h4 : (d.memPtr == a) = true := by simp [hd]
      simp [updateFirst, findPtrInfo, List.find?, h2, h3, h4]
    · have h4 : (d.memPtr == a) = false := by
        simp only [beq_eq_false_iff_ne]; exact hd
      by_cases hb : d.memPtr = b
      · have h5 : (d.memPtr == b) = true := by simp [hb]
        simp [updateFirst, findPtrInfo, List.find?, h4, h5]
      · have h5 : (d.memPtr == b) = false := by
          simp only [beq_eq_false_iff_ne]; exact hb
        simp only [updateFirst, h4, Bool.false_eq_true, if_false, findPtrInfo,
          List.find?, h5]
        exact ih

theorem updateFirst_append_right {f : PtrDetails → PtrDetails} {R : List PtrDetails}
    {a : Nat} (h : a ∉ R.map PtrDetails.memPtr) (S : List PtrDetails) :
    updateFirst f (R ++ S) a = R ++ updateFirst f S a := by
  induction R with
  | nil => rfl
  | cons d rest ih =>
    simp only [List.map_cons, List.mem_cons, not_or] at h
    simp [updateFirst, Ne.symm h.1, ih h.2]

theorem forall_mem_updateFirst {f : PtrDetails → PtrDetails} {Q : PtrDetails → Prop} :
    ∀ (R : List PtrDetails) (a : Nat),
      (R.map PtrDetails.memPtr).Nodup →
      (∀ d ∈ R, d.memPtr ≠ a → Q d) →
      (∀ d ∈ R, d.memPtr = a → Q (f d)) →
      ∀ e ∈ updateFirst f R a, Q e := by
  intro R
  induction R with
  | nil => intro a _ _ _ e he; simp [updateFirst] at he
  | cons d rest ih =>
    intro a hnd h1 h2 e he
    simp only [List.map_cons, List.nodup_cons] at hnd
    by_cases hd : d.memPtr = a
    · simp only [updateFirst, beq_iff_eq, hd, if_true, List.mem_cons] at he
      rcases he with rfl | he
      · exact h2 d (List.mem_cons_self d rest) hd
      · refine h1 e (List.mem_cons_of_mem d he) ?_
        intro hea
        exact hnd.1 (by
          rw [hd] at *
          exact List.mem_map.mpr ⟨e, he, hea⟩)
    · simp only [updateFirst, beq_iff_eq, hd, if_false, List.mem_cons] at he
      rcases he with rfl | he
      · exact h1 e (List.mem_cons_self e rest) hd
      · exact ih a hnd.2
          (fun x hx => h1 x (List.mem_cons_of_mem d hx))
          (fun x hx => h2 x (List.mem_cons_of_mem d hx)) e he

/-! ## `collect` lemmas -/

theorem collect_registry (R : List PtrDetails) :
    (collect R).registry = R.filter fun d => !d.zeroRefCount := by
  induction R with
  | nil => rfl
  | cons d rest ih =>
    by_cases hd : d.zeroRefCount
    · simp [collect, hd, List.filter, ih]
    · simp only [Bool.not_eq_true] at hd
      simp [collect, hd, List.filter, ih]

theorem collect_freed (R : List PtrDetails) :
    (collect R).freed = (R.filter fun d => d.zeroRefCount).map
      fun d => (d.memPtr, d.isArray) := by
  induction R with
  | nil => rfl
  | cons d rest ih =>
    by_cases hd : d.zeroRefCount
    · simp [collect, hd, List.filter, ih]
    · simp only [Bool.not_eq_true] at hd
      simp [collect, hd, List.filter, ih]

theorem collect_memfreed (R : List PtrDetails) :
    (collect R).memfreed = R.any fun d => d.zeroRefCount := by
  induction R with
  | nil => rfl
  | cons d rest ih =>
    by_cases hd : d.zeroRefCount
    · simp [collect, hd]
    · simp only [Bool.not_eq_true] at hd
      simp [collect, hd, ih]

/-! ## `count` lemmas -/

theorem count_append (hs hs2 : List Handle) (a : Nat) :
    count (hs ++ hs2) a = count hs a + count hs2 a :=
  List.countP_append _ _ _

theorem count_singleton (h : Handle) (a : Nat) :
    count [h] a = if h.addr = a then 1 else 0 := by
  simp [count, List.countP, List.countP.go]

theorem count_pos_of_mem {hs : List Handle} {x : Handle} (h : x ∈ hs) :
    0 < count hs x.addr :=
  List.countP_pos_iff.mpr ⟨x, h, by simp⟩

theorem count_le_length (hs : List Handle) (a : Nat) :
    count hs a ≤ hs.length :=
  List.countP_le_length _


theorem count_cons (x : Handle) (hs : List Handle) (a : Nat) :
    count (x :: hs) a = count hs a + (if x.addr = a then 1 else 0) := by
  simp [count, List.countP_cons]

/-! ## List positional helpers -/

theorem mem_of_getElem {hs : List Handle} {i : Nat} {h : Handle}
    (hi : hs[i]? = some h) : h ∈ hs := by
  induction hs generalizing i with
  | nil => simp at hi
  | cons x rest ih =>
    cases i with
    | zero =>
      simp only [List.getElem?_cons_zero, Option.some_inj] at hi
      exact hi ▸ List.mem_cons_self x rest
    | succ n =>
      simp only [List.getElem?_cons_succ] at hi
      exact List.mem_cons_of_mem x (ih hi)

theorem mem_of_mem_eraseIdx {hs : List Handle} {i : Nat} {x : Handle}
    (hx : x ∈ hs.eraseIdx i) : x ∈ hs := by
  induction hs generalizing i with
  | nil => simp [List.eraseIdx] at hx
  | cons y rest ih =>
    cases i with
    | zero => exact List.mem_cons_of_mem y (by simpa [List.eraseIdx] using hx)
    | succ n =>
      simp only [List.eraseIdx, List.mem_cons] at hx
      rcases hx with rfl | hx
      · exact List.mem_cons_self x rest
      · exact List.mem_cons_of_mem y (ih hx)

theorem length_eraseIdx_le (hs : List Handle) (i : Nat) :
    (hs.eraseIdx i).length ≤ hs.length := by
  induction hs generalizing i with
  | nil => simp [List.eraseIdx]
  | cons y rest ih =>
    cases i with
    | zero => simp [List.eraseIdx]
    | succ n =>
      simp only [List.eraseIdx, List.length_cons]
      exact Nat.succ_le_succ (ih n)

theorem count_eraseIdx {hs : List Handle} {i : Nat} {h : Handle}
    (hi : hs[i]? = some h) (a : Nat) :
    count hs a = count (hs.eraseIdx i) a + (if h.addr = a then 1 else 0) := by
  induction hs generalizing i with
  | nil => simp at hi
  | cons x rest ih =>
    cases i with
    | zero =>
      simp only [List.getElem?_cons_zero, Option.some_inj] at hi
      subst hi
      simp [List.eraseIdx, count_cons]
    | succ n =>
      simp only [List.getElem?_cons_succ] at hi
      simp only [List.eraseIdx, count_cons]
      have := ih hi
      omega

theorem set_perm {hs : List Handle} {i : Nat} {h : Handle}
    (hi : hs[i]? = some h) (h2 : Handle) :
    (hs.set i h2).Perm (hs.eraseIdx i ++ [h2]) := by
  induction hs generalizing i with
  | nil => simp at hi
  | cons x rest ih =>
    cases i with
    | zero =>
      simp only [List.set, List.eraseIdx]
      show ([h2] ++ rest).Perm (rest ++ [h2])
      exact List.perm_append_comm
    | succ n =>
      simp only [List.getElem?_cons_succ] at hi
      simp only [List.set, List.eraseIdx, List.cons_append]
      exact (ih hi).cons x

/-! ## Invariant preservation -/

theorem inv_incRef {s : GCState} (hInv : GCInv s) {a : Nat} {hnew : Handle}
    (ha : hnew.addr = a) (hmem : a ∈ s.registry.map PtrDetails.memPtr)
    (hlen : s.handles.length + 1 < UINT_MOD) :
    GCInv ⟨s.handles ++ [hnew], updateFirst PtrDetails.upRefCount s.registry a⟩ := by
  obtain ⟨inv1, inv2, inv3⟩ := hInv
  refine ⟨?_, ?_, ?_⟩
  · refine forall_mem_updateFirst s.registry a inv3 ?_ ?_
    · intro d hd hne
      have h1 := inv1 d hd
      rw [count_append, count_singleton, if_neg (by rw [ha]; exact fun he => hne he.symm)]
      omega
    · intro d hd hda
      have h1 := inv1 d hd
      have hle := count_le_length s.handles d.memPtr
      rw [hda] at h1 hle
      have hu : uinc d.refCount = d.refCount + 1 := uinc_eq (by omega)
      rw [upRefCount_refCount, upRefCount_memPtr, count_append, count_singleton,
        hda, ha, if_pos rfl, hu]
      omega
  · intro x hx
    rw [updateFirst_map_memPtr upRefCount_memPtr]
    rcases List.mem_append.mp hx with hx | hx
    · exact inv2 x hx
    · simp only [List.mem_singleton] at hx
      subst hx
      rw [ha]
      exact hmem
  · rw [updateFirst_map_memPtr upRefCount_memPtr]
    exact inv3

theorem inv_insert {s : GCState} (hInv : GCInv s) {a size : Nat} {hnew : Handle}
    (ha : hnew.addr = a) (hnm : a ∉ s.registry.map PtrDetails.memPtr) :
    GCInv ⟨s.handles ++ [hnew], s.registry ++ [PtrDetails.make a size]⟩ := by
  obtain ⟨inv1, inv2, inv3⟩ := hInv
  have hcount0 : count s.handles a = 0 := by
    by_contra hc
    obtain ⟨x, hx, hxa⟩ := List.countP_pos_iff.mp (Nat.pos_of_ne_zero hc)
    have hxm := inv2 x hx
    rw [show x.addr = a from by simpa using hxa] at hxm
    exact hnm hxm
  refine ⟨?_, ?_, ?_⟩
  · intro d hd
    rcases List.mem_append.mp hd with hd | hd
    · have hne : d.memPtr ≠ a := fun he => hnm (he ▸ List.mem_map.mpr ⟨d, hd, rfl⟩)
      have h1 := inv1 d hd
      rw [count_append, count_singleton, if_neg (by rw [ha]; exact fun he => hne he.symm)]
      omega
    · simp only [List.mem_singleton] at hd
      subst hd
      show (PtrDetails.make a size).refCount = _
      rw [show (PtrDetails.make a size).refCount = 1 from rfl,
        show (PtrDetails.make a size).memPtr = a from rfl,
        count_append, count_singleton, ha, if_pos rfl, hcount0]
  · intro x hx
    rw [List.map_append]
    rcases List.mem_append.mp hx with hx | hx
    · exact List.mem_append.mpr (Or.inl (inv2 x hx))
    · simp only [List.mem_singleton] at hx
      subst hx
      rw [ha]
      exact List.mem_append.mpr (Or.inr (by simp [PtrDetails.make]))
  · rw [List.map_append]
    refine List.Nodup.append inv3 (by simp) ?_
    intro x hx hx2
    simp only [List.map_cons, List.map_nil, List.mem_singleton] at hx2
    subst hx2
    exact hnm hx

theorem inv_decRef {s : GCState} (hInv : GCInv s) {i : Nat} {h : Handle}
    (hi : s.handles[i]? = some h) (hlen : s.handles.length < UINT_MOD) :
    GCInv ⟨s.handles.eraseIdx i,
      updateFirst PtrDetails.downRefCount s.registry h.addr⟩ := by
  obtain ⟨inv1, inv2, inv3⟩ := hInv
  have hm : h ∈ s.handles := mem_of_getElem hi
  have hpos : 0 < count s.handles h.addr := count_pos_of_mem hm
  refine ⟨?_, ?_, ?_⟩
  · refine forall_mem_updateFirst s.registry h.addr inv3 ?_ ?_
    · intro d hd hne
      have heq := count_eraseIdx hi d.memPtr
      rw [if_neg (fun he => hne he.symm)] at heq
      have h1 := inv1 d hd
      show d.refCount = count (s.handles.eraseIdx i) d.memPtr
      omega
    · intro d hd hda
      have heq := count_eraseIdx hi h.addr
      rw [if_pos rfl] at heq
      have h1 := inv1 d hd
      have hle := count_le_length s.handles d.memPtr
      rw [hda] at h1 hle
      have hd2 : udec d.refCount = d.refCount - 1 := udec_eq (by omega) (by omega)
      show (PtrDetails.downRefCount d).refCount
        = count (s.handles.eraseIdx i) (PtrDetails.downRefCount d).memPtr
      rw [downRefCount_refCount, downRefCount_memPtr, hda]
      omega
  · intro x hx
    rw [updateFirst_map_memPtr downRefCount_memPtr]
    exact inv2 x (mem_of_mem_eraseIdx hx)
  · rw [updateFirst_map_memPtr downRefCount_memPtr]
    exact inv3

theorem inv_collect {s : GCState} (hInv : GCInv s) :
    GCInv ⟨s.handles, (collect s.registry).registry⟩ := by
  obtain ⟨inv1, inv2, inv3⟩ := hInv
  rw [show (collect s.registry).registry
      = s.registry.filter (fun d => !d.zeroRefCount) from collect_registry _]
  refine ⟨?_, ?_, ?_⟩
  · intro d hd
    exact inv1 d (List.mem_of_mem_filter hd)
  · intro x hx
    obtain ⟨d, hfind, hdR, hdm⟩ := findPtrInfo_isSome_of_mem (inv2 x hx)
    have hdc := inv1 d hdR
    have hpos : 0 < count s.handles x.addr := count_pos_of_mem hx
    rw [hdm] at hdc
    have hnz : (!d.zeroRefCount) = true := by
      simp only [PtrDetails.zeroRefCount, Bool.not_eq_eq_eq_not, Bool.not_true,
        beq_eq_false_iff_ne]
      omega
    exact List.mem_map.mpr ⟨d, List.mem_filter.mpr ⟨hdR, hnz⟩, hdm⟩
  · exact List.Nodup.sublist ((List.filter_sublist _).map _) inv3

theorem inv_perm {hs1 hs2 : List Handle} {R : List PtrDetails}
    (hp : hs1.Perm hs2) (hInv : GCInv ⟨hs1, R⟩) : GCInv ⟨hs2, R⟩ := by
  obtain ⟨inv1, inv2, inv3⟩ := hInv
  refine ⟨?_, ?_, inv3⟩
  · intro d hd
    rw [show count hs2 d.memPtr = count hs1 d.memPtr from (hp.countP_eq _).symm]
    exact inv1 d hd
  · intro x hx
    exact inv2 x (hp.mem_iff.mpr hx)

theorem set_self {hs : List Handle} {i : Nat} {h : Handle}
    (hi : hs[i]? = some h) : hs.set i h = hs := by
  induction hs generalizing i with
  | nil => rfl
  | cons x rest ih =>
    cases i with
    | zero =>
      simp only [List.getElem?_cons_zero, Option.some_inj] at hi
      simp [List.set, hi]
    | succ n =>
      simp only [List.getElem?_cons_succ] at hi
      simp [List.set, ih hi]

/-- One step preserves the coherence invariant and grows the live-handle
population by at most one. -/
theorem step_inv {size : Nat} {s s2 : GCState} {op : GCOp}
    (hInv : GCInv s) (hlen : s.handles.length + 1 < UINT_MOD)
    (hstep : step size s op = some s2) :
    GCInv s2 ∧ s2.handles.length ≤ s.handles.length + 1 := by
  cases op with
  | construct t =>
    cases hfind : findPtrInfo s.registry t with
    | some d =>
      simp only [step, constructRaw, hfind, Option.some_inj] at hstep
      subst hstep
      have hmem : t ∈ s.registry.map PtrDetails.memPtr := by
        obtain ⟨hdR, hdm⟩ := findPtrInfo_some hfind
        exact List.mem_map.mpr ⟨d, hdR, hdm⟩
      refine ⟨inv_incRef hInv rfl hmem hlen, ?_⟩
      simp
    | none =>
      simp only [step, constructRaw, hfind, Option.some_inj] at hstep
      subst hstep
      refine ⟨inv_insert hInv rfl (findPtrInfo_eq_none.mp hfind), ?_⟩
      simp
  | copyFrom i =>
    cases hi : s.handles[i]? with
    | none => simp [step, hi] at hstep
    | some ob =>
      cases hfind : findPtrInfo s.registry ob.addr with
      | none => simp [step, hi, copyConstruct, hfind] at hstep
      | some d =>
        simp only [step, hi, copyConstruct, hfind, Option.some_inj] at hstep
        subst hstep
        have hmem : ob.addr ∈ s.registry.map PtrDetails.memPtr := by
          obtain ⟨hdR, hdm⟩ := findPtrInfo_some hfind
          exact List.mem_map.mpr ⟨d, hdR, hdm⟩
        refine ⟨inv_incRef hInv rfl hmem hlen, ?_⟩
        simp
  | destroy i =>
    cases hi : s.handles[i]? with
    | none => simp [step, hi] at hstep
    | some h =>
      cases hfind : findPtrInfo s.registry h.addr with
      | none => simp [step, hi, destruct, hfind] at hstep
      | some d =>
        simp only [step, hi, destruct, hfind, Option.some_inj] at hstep
        subst hstep
        have hmid := inv_decRef hInv hi (by omega)
        refine ⟨inv_collect hmid, ?_⟩
        have := length_eraseIdx_le s.handles i
        simpa using Nat.le_trans this (Nat.le_succ _)
  | assignRawTo i t =>
    cases hi : s.handles[i]? with
    | none => simp [step, hi] at hstep
    | some h =>
      have hm : h ∈ s.handles := mem_of_getElem hi
      have hmem : h.addr ∈ s.registry.map PtrDetails.memPtr := hInv.2.1 h hm
      cases hfind : findPtrInfo s.registry h.addr with
      | none => exact absurd (findPtrInfo_eq_none.mp hfind) (by simp [hmem])
      | some d =>
        have hmid := inv_decRef hInv hi (by omega)
        have hlen2 : (s.handles.eraseIdx i).length + 1 < UINT_MOD := by
          have := length_eraseIdx_le s.handles i
          omega
        cases hfind2 : findPtrInfo
            (updateFirst PtrDetails.downRefCount s.registry h.addr) t with
        | none =>
          simp only [step, hi, assignRaw, hfind, hfind2, Option.some_inj] at hstep
          subst hstep
          have hins : GCInv ⟨s.handles.eraseIdx i
                ++ [⟨t, decide (size > 0), size⟩],
              updateFirst PtrDetails.downRefCount s.registry h.addr
                ++ [PtrDetails.make t size]⟩ :=
            inv_insert hmid rfl (findPtrInfo_eq_none.mp hfind2)
          refine ⟨inv_perm (set_perm hi _).symm hins, ?_⟩
          simp [List.length_set]
        | some d2 =>
          simp only [step, hi, assignRaw, hfind, hfind2, Option.some_inj] at hstep
          subst hstep
          have hmem2 : t ∈ (updateFirst PtrDetails.downRefCount
              s.registry h.addr).map PtrDetails.memPtr := by
            obtain ⟨hdR, hdm⟩ := findPtrInfo_some hfind2
            exact List.mem_map.mpr ⟨d2, hdR, hdm⟩
          have hinc : GCInv ⟨s.handles.eraseIdx i
                ++ [⟨t, decide (size > 0), size⟩],
              updateFirst PtrDetails.upRefCount
                (updateFirst PtrDetails.downRefCount s.registry h.addr) t⟩ :=
            inv_incRef hmid rfl hmem2 hlen2
          refine ⟨inv_perm (set_perm hi _).symm hinc, ?_⟩
          simp [List.length_set]
  | assignFrom i j =>
    cases hi : s.handles[i]? with
    | none => simp [step, hi] at hstep
    | some h =>
      cases hj : s.handles[j]? with
      | none => simp [step, hi, hj] at hstep
      | some rv =>
        by_cases haddr : h.addr = rv.addr
        · simp only [step, hi, hj, assignHandle, if_pos haddr,
            Option.some_inj] at hstep
          subst hstep
          rw [set_self hi]
          exact ⟨hInv, Nat.le_succ _⟩
        · have hm : h ∈ s.handles := mem_of_getElem hi
          have hmem : h.addr ∈ s.registry.map PtrDetails.memPtr := hInv.2.1 h hm
          cases hfind : findPtrInfo s.registry h.addr with
          | none => exact absurd (findPtrInfo_eq_none.mp hfind) (by simp [hmem])
          | some d =>
            have hmrv : rv.addr ∈ s.registry.map PtrDetails.memPtr :=
              hInv.2.1 rv (mem_of_getElem hj)
            have hmrv2 : rv.addr ∈ (updateFirst PtrDetails.downRefCount
                s.registry h.addr).map PtrDetails.memPtr := by
              rw [updateFirst_map_memPtr downRefCount_memPtr]
              exact hmrv
            cases hfind2 : findPtrInfo
                (updateFirst PtrDetails.downRefCount s.registry h.addr)
                rv.addr with
            | none => exact absurd (findPtrInfo_eq_none.mp hfind2) (by simp [hmrv2])
            | some d2 =>
              simp only [step, hi, hj, assignHandle, if_neg haddr, hfind,
                hfind2, Option.some_inj] at hstep
              subst hstep
              have hmid := inv_decRef hInv hi (by omega)
              have hlen2 : (s.handles.eraseIdx i).length + 1 < UINT_MOD := by
                have := length_eraseIdx_le s.handles i
                omega
              have hinc : GCInv ⟨s.handles.eraseIdx i
                    ++ [⟨rv.addr, rv.isArray, rv.arraySize⟩],
                  updateFirst PtrDetails.upRefCount
                    (updateFirst PtrDetails.downRefCount s.registry h.addr)
                    rv.addr⟩ :=
                inv_incRef hmid rfl hmrv2 hlen2
              refine ⟨inv_perm (set_perm hi _).symm hinc, ?_⟩
              simp [List.length_set]
  | sweep =>
    simp only [step, Option.some_inj] at hstep
    subst hstep
    exact ⟨inv_collect hInv, Nat.le_succ _⟩

theorem nodup_registry_append_make {R : List PtrDetails} {t size : Nat}
    (hnm : t ∉ R.map PtrDetails.memPtr)
    (hnd : (R.map PtrDetails.memPtr).Nodup) :
    ((R ++ [PtrDetails.make t size]).map PtrDetails.memPtr).Nodup := by
  rw [List.map_append]
  refine List.Nodup.append hnd (by simp) ?_
  intro x hx hx2
  simp only [List.map_cons, List.map_nil, List.mem_singleton] at hx2
  subst hx2
  exact hnm hx

theorem nodup_collect_registry {R : List PtrDetails}
    (hnd : (R.map PtrDetails.memPtr).Nodup) :
    (((collect R).registry).map PtrDetails.memPtr).Nodup := by
  rw [collect_registry]
  exact List.Nodup.sublist ((List.filter_sublist _).map _) hnd

/-- One step preserves distinctness of registry addresses, with no other
assumption on the state. -/
theorem step_nodup {size : Nat} {s s2 : GCState} {op : GCOp}
    (hnd : (s.registry.map PtrDetails.memPtr).Nodup)
    (hstep : step size s op = some s2) :
    (s2.registry.map PtrDetails.memPtr).Nodup := by
  cases op with
  | construct t =>
    cases hfind : findPtrInfo s.registry t with
    | some d =>
      simp only [step, constructRaw, hfind, Option.some_inj] at hstep
      subst hstep
      show ((updateFirst PtrDetails.upRefCount s.registry t).map
        PtrDetails.memPtr).Nodup
      rw [updateFirst_map_memPtr upRefCount_memPtr]
      exact hnd
    | none =>
      simp only [step, constructRaw, hfind, Option.some_inj] at hstep
      subst hstep
      exact nodup_registry_append_make (findPtrInfo_eq_none.mp hfind) hnd
  | copyFrom i =>
    cases hi : s.handles[i]? with
    | none => simp [step, hi] at hstep
    | some ob =>
      cases hfind : findPtrInfo s.registry ob.addr with
      | none => simp [step, hi, copyConstruct, hfind] at hstep
      | some d =>
        simp only [step, hi, copyConstruct, hfind, Option.some_inj] at hstep
        subst hstep
        show ((updateFirst PtrDetails.upRefCount s.registry ob.addr).map
          PtrDetails.memPtr).Nodup
        rw [updateFirst_map_memPtr upRefCount_memPtr]
        exact hnd
  | destroy i =>
    cases hi : s.handles[i]? with
    | none => simp [step, hi] at hstep
    | some h =>
      cases hfind : findPtrInfo s.registry h.addr with
      | none => simp [step, hi, destruct, hfind] at hstep
      | some d =>
        simp only [step, hi, destruct, hfind, Option.some_inj] at hstep
        subst hstep
        refine nodup_collect_registry ?_
        rw [updateFirst_map_memPtr downRefCount_memPtr]
        exact hnd
  | assignRawTo i t =>
    cases hi : s.handles[i]? with
    | none => simp [step, hi] at hstep
    | some h =>
      cases hfind : findPtrInfo s.registry h.addr with
      | some d =>
        have hnd1 : ((updateFirst PtrDetails.downRefCount s.registry
            h.addr).map PtrDetails.memPtr).Nodup := by
          rw [updateFirst_map_memPtr downRefCount_memPtr]
          exact hnd
        cases hfind2 : findPtrInfo
            (updateFirst PtrDetails.downRefCount s.registry h.addr) t with
        | none =>
          simp only [step, hi, assignRaw, hfind, hfind2, Option.some_inj] at hstep
          subst hstep
          exact nodup_registry_append_make (findPtrInfo_eq_none.mp hfind2) hnd1
        | some d2 =>
          simp only [step, hi, assignRaw, hfind, hfind2, Option.some_inj] at hstep
          subst hstep
          show ((updateFirst PtrDetails.upRefCount
            (updateFirst PtrDetails.downRefCount s.registry h.addr) t).map
            PtrDetails.memPtr).Nodup
          rw [updateFirst_map_memPtr upRefCount_memPtr]
          exact hnd1
      | none =>
        cases hfind2 : findPtrInfo s.registry t with
        | none =>
          simp only [step, hi, assignRaw, hfind, hfind2, Option.some_inj] at hstep
          subst hstep
          exact nodup_registry_append_make (findPtrInfo_eq_none.mp hfind2) hnd
        | some d2 =>
          simp only [step, hi, assignRaw, hfind, hfind2, Option.some_inj] at hstep
          subst hstep
          show ((updateFirst PtrDetails.upRefCount s.registry t).map
            PtrDetails.memPtr).Nodup
          rw [updateFirst_map_memPtr upRefCount_memPtr]
          exact hnd
  | assignFrom i j =>
    cases hi : s.handles[i]? with
    | none => simp [step, hi] at hstep
    | some h =>
      cases hj : s.handles[j]? with
      | none => simp [step, hi, hj] at hstep
      | some rv =>
        by_cases haddr : h.addr = rv.addr
        · simp only [step, hi, hj, assignHandle, if_pos haddr,
            Option.some_inj] at hstep
          subst hstep
          exact hnd
        · cases hfind : findPtrInfo s.registry h.addr with
          | none => simp [step, hi, hj, assignHandle, if_neg haddr, hfind] at hstep
          | some d =>
            cases hfind2 : findPtrInfo
                (updateFirst PtrDetails.downRefCount s.registry h.addr)
                rv.addr with
            | none =>
              simp [step, hi, hj, assignHandle, if_neg haddr, hfind,
                hfind2] at hstep
            | some d2 =>
              simp only [step, hi, hj, assignHandle, if_neg haddr, hfind,
                hfind2, Option.some_inj] at hstep
              subst hstep
              show ((updateFirst PtrDetails.upRefCount
                (updateFirst PtrDetails.downRefCount s.registry h.addr)
                rv.addr).map PtrDetails.memPtr).Nodup
              rw [updateFirst_map_memPtr upRefCount_memPtr,
                updateFirst_map_memPtr downRefCount_memPtr]
              exact hnd
  | sweep =>
    simp only [step, Option.some_inj] at hstep
    subst hstep
    exact nodup_collect_registry hnd

/-- Running a script preserves the invariant and bounds the live-handle
population by the number of executed operations. -/
theorem runFrom_inv {size : Nat} (ops : List GCOp) :
    ∀ s0 s : GCState, GCInv s0 →
      s0.handles.length + ops.length < UINT_MOD →
      runFrom size s0 ops = some s →
      GCInv s ∧ s.handles.length ≤ s0.handles.length + ops.length := by
  induction ops with
  | nil =>
    intro s0 s h0 _ hrun
    simp only [runFrom, Option.some_inj] at hrun
    subst hrun
    exact ⟨h0, by omega⟩
  | cons op rest ih =>
    intro s0 s h0 hlen hrun
    simp only [runFrom] at hrun
    cases hstep : step size s0 op with
    | none => rw [hstep] at hrun; exact absurd hrun (by simp)
    | some s1 =>
      rw [hstep] at hrun
      simp only [List.length_cons] at hlen
      have h1 := step_inv h0 (by omega) hstep
      have h2 := ih s1 s h1.1 (by omega) hrun
      refine ⟨h2.1, ?_⟩
      simp only [List.length_cons]
      omega

theorem runFrom_nodup {size : Nat} (ops : List GCOp) :
    ∀ s0 s : GCState, (s0.registry.map PtrDetails.memPtr).Nodup →
      runFrom size s0 ops = some s →
      (s.registry.map PtrDetails.memPtr).Nodup := by
  induction ops with
  | nil =>
    intro s0 s h0 hrun
    simp only [runFrom, Option.some_inj] at hrun
    subst hrun
    exact h0
  | cons op rest ih =>
    intro s0 s h0 hrun
    simp only [runFrom] at hrun
    cases hstep : step size s0 op with
    | none => rw [hstep] at hrun; exact absurd hrun (by simp)
    | some s1 =>
      rw [hstep] at hrun
      exact ih s1 s (step_nodup h0 hstep) hrun

theorem gcinit : GCInv ⟨[], []⟩ := by
  refine ⟨?_, ?_, ?_⟩ <;> simp

theorem run_inv {size : Nat} {ops : List GCOp} {s : GCState}
    (hlen : ops.length < UINT_MOD) (hrun : run size ops = some s) :
    GCInv s :=
  (runFrom_inv ops ⟨[], []⟩ s gcinit (by simpa using hlen) hrun).1

theorem make_memPtr (p s : Nat) : (PtrDetails.make p s).memPtr = p := rfl

theorem make_refCount (p s : Nat) : (PtrDetails.make p s).refCount = 1 := rfl

theorem make_isArray (p s : Nat) :
    (PtrDetails.make p s).isArray = decide (s > 0) := rfl

theorem forceZero_refCount (d : PtrDetails) :
    ({ d with refCount := 0 } : PtrDetails).refCount = 0 := by
  cases d; rfl

theorem forceZero_memPtr (d : PtrDetails) :
    ({ d with refCount := 0 } : PtrDetails).memPtr = d.memPtr := by
  cases d; rfl

theorem forceZero_isArray (d : PtrDetails) :
    ({ d with refCount := 0 } : PtrDetails).isArray = d.isArray := by
  cases d; rfl

theorem findPtrInfo_append (S : List PtrDetails) :
    ∀ (R : List PtrDetails) (a : Nat), a ∉ R.map PtrDetails.memPtr →
      findPtrInfo (R ++ S) a = findPtrInfo S a := by
  intro R
  induction R with
  | nil => intro a _; rfl
  | cons d rest ih =>
    intro a hnm
    simp only [List.map_cons, List.mem_cons, not_or] at hnm
    have hd : (d.memPtr == a) = false := by
      simp only [beq_eq_false_iff_ne]; exact fun he => hnm.1 he.symm
    simp only [List.cons_append, findPtrInfo, List.find?, hd]
    exact ih a hnm.2

/-- C1: for every specialization and every script of the six handle
operations (construct, copy-construct, destruct, assign-raw,
assign-handle, sweep) run from the initial empty state, after every
operation each allocation record's refcount equals the number of
currently live handles of that specialization holding that record's
address.  The script is shorter than `2 ^ 32` so the `unsigned` counter
cannot wrap.  The transient exception the claim allows for reassignment
is never needed: the equality holds after every operation outright. -/
theorem C1_refcount_eq_live_handles (size : Nat) (ops : List GCOp)
    (hlen : ops.length < UINT_MOD) (s : GCState)
    (hrun : run size ops = some s) :
    ∀ d ∈ s.registry, d.refCount = count s.handles d.memPtr :=
  (run_inv hlen hrun).1

theorem C1_witness :
    run 0 [GCOp.construct 5, GCOp.construct 5, GCOp.assignRawTo 0 7]
      = some ⟨[Handle.mk 7 false 0, Handle.mk 5 false 0],
          [PtrDetails.mk 1 5 false 0, PtrDetails.mk 1 7 false 0]⟩ ∧
    ∀ d ∈ [PtrDetails.mk 1 5 false 0, PtrDetails.mk 1 7 false 0],
      d.refCount = count [Handle.mk 7 false 0, Handle.mk 5 false 0] d.memPtr :=
  ⟨by decide, C1_refcount_eq_live_handles 0
    [GCOp.construct 5, GCOp.construct 5, GCOp.assignRawTo 0 7] (by decide)
    ⟨[Handle.mk 7 false 0, Handle.mk 5 false 0],
      [PtrDetails.mk 1 5 false 0, PtrDetails.mk 1 7 false 0]⟩ (by decide)⟩

/-- C9: after every script of handle operations run from the initial
empty state, the registry holds at most one allocation record per
distinct address: the list of registry addresses has no duplicates. -/
theorem C9_at_most_one_record_per_address (size : Nat) (ops : List GCOp)
    (s : GCState) (hrun : run size ops = some s) :
    (s.registry.map PtrDetails.memPtr).Nodup :=
  runFrom_nodup ops ⟨[], []⟩ s (by simp) hrun

theorem C9_witness :
    (([PtrDetails.mk 2 3 false 0, PtrDetails.mk 1 4 false 0]).map
      PtrDetails.memPtr).Nodup :=
  C9_at_most_one_record_per_address 0
    [GCOp.construct 3, GCOp.construct 3, GCOp.construct 4]
    ⟨[Handle.mk 3 false 0, Handle.mk 3 false 0, Handle.mk 4 false 0],
      [PtrDetails.mk 2 3 false 0, PtrDetails.mk 1 4 false 0]⟩ (by decide)

/-- C2: one `collect()` pass removes exactly the records whose refcount
is zero (all other records survive unchanged, in order), issues one
deallocation per removed record — the array form iff that record's
`isArray` flag is set, the scalar form otherwise — and returns `true`
iff at least one record was removed. -/
theorem C2_collect_spec (R : List PtrDetails) :
    (collect R).registry = R.filter (fun d => !d.zeroRefCount) ∧
    (collect R).freed = (R.filter fun d => d.zeroRefCount).map
      (fun d => (d.memPtr, d.isArray)) ∧
    ((collect R).memfreed = true ↔ ∃ d ∈ R, d.refCount = 0) :=
  ⟨collect_registry R, collect_freed R, by
    rw [collect_memfreed]
    simp [List.any_eq_true, PtrDetails.zeroRefCount]⟩

/-- C6: `shutdown` zeroes every refcount and sweeps, so afterwards the
registry is empty and every previously outstanding record produced
exactly one deallocation call, with its recorded array/scalar form,
regardless of the refcounts held before teardown. -/
theorem C6_shutdown_empties_registry (R : List PtrDetails) :
    (shutdown R).registry = [] ∧
    (shutdown R).freed = R.map fun d => (d.memPtr, d.isArray) := by
  by_cases hR : R.length = 0
  · have hnil : R = [] := List.length_eq_zero.mp hR
    subst hnil
    simp [shutdown]
  · have hall : ∀ d2 ∈ R.map (fun d => ({ d with refCount := 0 } : PtrDetails)),
        d2.zeroRefCount = true := by
      intro d2 hd2
      obtain ⟨d0, _, rfl⟩ := List.mem_map.mp hd2
      simp [PtrDetails.zeroRefCount, forceZero_refCount]
    unfold shutdown
    rw [if_neg hR]
    constructor
    · rw [collect_registry]
      refine List.filter_eq_nil_iff.mpr ?_
      intro a ha
      simp [hall a ha]
    · rw [collect_freed, List.filter_eq_self.mpr hall, List.map_map]
      refine List.map_congr_left ?_
      intro d0 _
      simp [Function.comp, forceZero_memPtr, forceZero_isArray]

theorem downRefCount_isArray (d : PtrDetails) :
    (PtrDetails.downRefCount d).isArray = d.isArray := by
  cases d; rfl

theorem findPtrInfo_append_left (S : List PtrDetails) :
    ∀ (R : List PtrDetails) (a : Nat) (d : PtrDetails),
      findPtrInfo R a = some d → findPtrInfo (R ++ S) a = some d := by
  intro R
  induction R with
  | nil => intro a d h; simp [findPtrInfo, List.find?] at h
  | cons x rest ih =>
    intro a d h
    by_cases hx : x.memPtr = a
    · have hxt : (x.memPtr == a) = true := by simp [hx]
      simp only [findPtrInfo, List.find?, hxt] at h
      simp only [List.cons_append, findPtrInfo, List.find?, hxt]
      exact h
    · have hxf : (x.memPtr == a) = false := by
        simp only [beq_eq_false_iff_ne]; exact hx
      simp only [findPtrInfo, List.find?, hxf] at h
      simp only [List.cons_append, findPtrInfo, List.find?, hxf]
      exact ih a d h

/-- C5: `operator=(T*)` on a handle whose current address has a record:
it returns the assigned pointer, updates the handle's fields from the
template parameter, decrements the old record without removing it (the
record survives in the registry even when the refcount reaches zero —
no sweep runs on this path, no registry entry disappears), and
registers the new address: a fresh record with refcount 1 when absent,
an increment of the existing record when present. -/
theorem C5_assign_raw_spec (size : Nat) (h : Handle) (t : Nat)
    (R : List PtrDetails) (dA : PtrDetails)
    (hA : findPtrInfo R h.addr = some dA) (hb : 1 ≤ dA.refCount)
    (hb2 : dA.refCount < UINT_MOD) :
    (assignRaw size h t R).2.1 = t ∧
    (assignRaw size h t R).1 = ⟨t, decide (size > 0), size⟩ ∧
    (t ≠ h.addr → findPtrInfo (assignRaw size h t R).2.2 h.addr
        = some { dA with refCount := dA.refCount - 1 }) ∧
    (findPtrInfo R t = none → t ≠ h.addr →
      findPtrInfo (assignRaw size h t R).2.2 t
        = some (PtrDetails.make t size)) ∧
    (∀ dB, findPtrInfo R t = some dB → t ≠ h.addr →
      dB.refCount + 1 < UINT_MOD →
      findPtrInfo (assignRaw size h t R).2.2 t
        = some { dB with refCount := dB.refCount + 1 }) ∧
    (∀ a, a ∈ R.map PtrDetails.memPtr →
      a ∈ (assignRaw size h t R).2.2.map PtrDetails.memPtr) := by
  have hdown : PtrDetails.downRefCount dA
      = { dA with refCount := dA.refCount - 1 } := by
    cases dA
    simp only [PtrDetails.downRefCount] at *
    rw [udec_eq hb hb2]
  have hmapR1 : (updateFirst PtrDetails.downRefCount R h.addr).map
      PtrDetails.memPtr = R.map PtrDetails.memPtr :=
    updateFirst_map_memPtr downRefCount_memPtr R h.addr
  refine ⟨?_, ?_, ?_, ?_, ?_, ?_⟩
  · cases hfind2 : findPtrInfo
        (updateFirst PtrDetails.downRefCount R h.addr) t with
    | none => simp only [assignRaw, hA, hfind2]
    | some d2 => simp only [assignRaw, hA, hfind2]
  · cases hfind2 : findPtrInfo
        (updateFirst PtrDetails.downRefCount R h.addr) t with
    | none => simp only [assignRaw, hA, hfind2]
    | some d2 => simp only [assignRaw, hA, hfind2]
  · intro hne
    have hR1 : findPtrInfo (updateFirst PtrDetails.downRefCount R h.addr)
        h.addr = some (PtrDetails.downRefCount dA) := by
      rw [findPtrInfo_updateFirst_self downRefCount_memPtr, hA]
      rfl
    cases hfind2 : findPtrInfo
        (updateFirst PtrDetails.downRefCount R h.addr) t with
    | none =>
      simp only [assignRaw, hA, hfind2]
      rw [findPtrInfo_append_left _ _ _ _ hR1, hdown]
    | some d2 =>
      simp only [assignRaw, hA, hfind2]
      rw [findPtrInfo_updateFirst_ne upRefCount_memPtr _ (fun he => hne he.symm),
        hR1, hdown]
  · intro hnone hne
    have hfind2 : findPtrInfo (updateFirst PtrDetails.downRefCount R h.addr) t
        = none := by
      rw [findPtrInfo_updateFirst_ne downRefCount_memPtr _ hne]
      exact hnone
    simp only [assignRaw, hA, hfind2]
    have hnm : t ∉ (updateFirst PtrDetails.downRefCount R h.addr).map
        PtrDetails.memPtr := findPtrInfo_eq_none.mp hfind2
    rw [findPtrInfo_append _ _ _ hnm]
    simp [findPtrInfo, List.find?, make_memPtr]
  · intro dB hsome hne hb3
    have hfind2 : findPtrInfo (updateFirst PtrDetails.downRefCount R h.addr) t
        = some dB := by
      rw [findPtrInfo_updateFirst_ne downRefCount_memPtr _ hne]
      exact hsome
    simp only [assignRaw, hA, hfind2]
    rw [findPtrInfo_updateFirst_self upRefCount_memPtr, hfind2]
    have : PtrDetails.upRefCount dB = { dB with refCount := dB.refCount + 1 } := by
      cases dB
      simp only [PtrDetails.upRefCount] at *
      rw [uinc_eq hb3]
    rw [show Option.map PtrDetails.upRefCount (some dB)
        = some (PtrDetails.upRefCount dB) from rfl, this]
  · intro a ha
    cases hfind2 : findPtrInfo
        (updateFirst PtrDetails.downRefCount R h.addr) t with
    | none =>
      simp only [assignRaw, hA, hfind2]
      rw [List.map_append]
      exact List.mem_append.mpr (Or.inl (by rw [hmapR1]; exact ha))
    | some d2 =>
      simp only [assignRaw, hA, hfind2]
      rw [updateFirst_map_memPtr upRefCount_memPtr, hmapR1]
      exact ha

theorem C5_witness :
    (assignRaw 0 ⟨5, false, 0⟩ 7 [PtrDetails.mk 1 5 false 0]).2.1 = 7 ∧
    findPtrInfo (assignRaw 0 ⟨5, false, 0⟩ 7
        [PtrDetails.mk 1 5 false 0]).2.2 5
      = some (PtrDetails.mk 0 5 false 0) ∧
    findPtrInfo (assignRaw 0 ⟨5, false, 0⟩ 7
        [PtrDetails.mk 1 5 false 0]).2.2 7
      = some (PtrDetails.make 7 0) := by
  have h := C5_assign_raw_spec 0 ⟨5, false, 0⟩ 7 [PtrDetails.mk 1 5 false 0]
    (PtrDetails.mk 1 5 false 0) (by decide) (by decide) (by decide)
  exact ⟨h.1, h.2.2.1 (by decide), h.2.2.2.1 (by decide) (by decide)⟩

/-- C8: `operator=(Pointer&)` is a no-op when the two handles carry the
same address — the self-assignment guard `*this != rv` compares through
`operator T*`, i.e. by address, so in particular assigning a handle to
itself changes nothing.  Otherwise it decrements the record of the
assigned-to handle's current address, increments the record of `rv`'s
address, and copies `rv`'s address, array flag and array length; in no
case does a sweep run: the set of registry addresses is unchanged. -/
theorem C8_assign_handle_spec (h rv : Handle) (R : List PtrDetails)
    (dh drv : PtrDetails) (hh : findPtrInfo R h.addr = some dh)
    (hrv : findPtrInfo R rv.addr = some drv)
    (hb1 : 1 ≤ dh.refCount) (hb2 : dh.refCount < UINT_MOD)
    (hb3 : drv.refCount + 1 < UINT_MOD) :
    (h.addr = rv.addr → assignHandle h rv R = some (h, R)) ∧
    (h.addr ≠ rv.addr → ∃ R2,
      assignHandle h rv R = some (⟨rv.addr, rv.isArray, rv.arraySize⟩, R2) ∧
      findPtrInfo R2 h.addr = some { dh with refCount := dh.refCount - 1 } ∧
      findPtrInfo R2 rv.addr = some { drv with refCount := drv.refCount + 1 } ∧
      R2.map PtrDetails.memPtr = R.map PtrDetails.memPtr) := by
  constructor
  · intro he
    simp [assignHandle, he]
  · intro hne
    have hfind2 : findPtrInfo (updateFirst PtrDetails.downRefCount R h.addr)
        rv.addr = some drv := by
      rw [findPtrInfo_updateFirst_ne downRefCount_memPtr _
        (fun he => hne he.symm)]
      exact hrv
    refine ⟨updateFirst PtrDetails.upRefCount
      (updateFirst PtrDetails.downRefCount R h.addr) rv.addr, ?_, ?_, ?_, ?_⟩
    · simp only [assignHandle, if_neg hne, hh, hfind2]
    · rw [findPtrInfo_updateFirst_ne upRefCount_memPtr _ hne,
        findPtrInfo_updateFirst_self downRefCount_memPtr, hh]
      have : PtrDetails.downRefCount dh
          = { dh with refCount := dh.refCount - 1 } := by
        cases dh
        simp only [PtrDetails.downRefCount] at *
        rw [udec_eq hb1 hb2]
      rw [show Option.map PtrDetails.downRefCount (some dh)
          = some (PtrDetails.downRefCount dh) from rfl, this]
    · rw [findPtrInfo_updateFirst_self upRefCount_memPtr, hfind2]
      have : PtrDetails.upRefCount drv
          = { drv with refCount := drv.refCount + 1 } := by
        cases drv
        simp only [PtrDetails.upRefCount] at *
        rw [uinc_eq hb3]
      rw [show Option.map PtrDetails.upRefCount (some drv)
          = some (PtrDetails.upRefCount drv) from rfl, this]
    · rw [updateFirst_map_memPtr upRefCount_memPtr,
        updateFirst_map_memPtr downRefCount_memPtr]

theorem C8_witness :
    assignHandle ⟨5, false, 0⟩ ⟨5, false, 0⟩ [PtrDetails.mk 1 5 false 0]
      = some (⟨5, false, 0⟩, [PtrDetails.mk 1 5 false 0]) ∧
    ∃ R2, assignHandle ⟨5, false, 0⟩ ⟨7, false, 0⟩
        [PtrDetails.mk 1 5 false 0, PtrDetails.mk 1 7 false 0]
      = some (⟨7, false, 0⟩, R2) ∧
      findPtrInfo R2 5 = some (PtrDetails.mk 0 5 false 0) ∧
      findPtrInfo R2 7 = some (PtrDetails.mk 2 7 false 0) ∧
      R2.map PtrDetails.memPtr = [5, 7] := by
  have h1 := C8_assign_handle_spec ⟨5, false, 0⟩ ⟨5, false, 0⟩
    [PtrDetails.mk 1 5 false 0] (PtrDetails.mk 1 5 false 0)
    (PtrDetails.mk 1 5 false 0) (by decide) (by decide) (by decide)
    (by decide) (by decide)
  have h2 := C8_assign_handle_spec ⟨5, false, 0⟩ ⟨7, false, 0⟩
    [PtrDetails.mk 1 5 false 0, PtrDetails.mk 1 7 false 0]
    (PtrDetails.mk 1 5 false 0) (PtrDetails.mk 1 7 false 0)
    (by decide) (by decide) (by decide) (by decide) (by decide)
  refine ⟨h1.1 rfl, ?_⟩
  obtain ⟨R2, hEq, hfh, hfrv, hmap⟩ := h2.2 (by decide)
  exact ⟨R2, hEq, hfh, hfrv, by rw [hmap]; rfl⟩

/-- C7: registering an address on handle construction emplaces a fresh
record with refcount 1 when no record for that address exists, and
increments the existing record's refcount (leaving the registry's
address list unchanged) when one does.  Concretely, two
independently-constructed handles over address 5 produce exactly one
record for 5 with refcount 2; destroying the second handle decrements
to 1 with no deallocation, and destroying the first then removes the
record with exactly one deallocation call for address 5. -/
theorem C7_register_increment_or_insert :
    (∀ (size t : Nat) (R : List PtrDetails), findPtrInfo R t = none →
      (constructRaw size t R).2 = R ++ [PtrDetails.make t size]) ∧
    (∀ (size t : Nat) (R : List PtrDetails) (d : PtrDetails),
      findPtrInfo R t = some d → d.refCount + 1 < UINT_MOD →
      findPtrInfo (constructRaw size t R).2 t
          = some { d with refCount := d.refCount + 1 } ∧
      (constructRaw size t R).2.map PtrDetails.memPtr
          = R.map PtrDetails.memPtr) ∧
    (constructRaw 0 5 (constructRaw 0 5 []).2).2
        = [PtrDetails.mk 2 5 false 0] ∧
    destruct (constructRaw 0 5 (constructRaw 0 5 []).2).1
        [PtrDetails.mk 2 5 false 0]
        = some ⟨[PtrDetails.mk 1 5 false 0], [], false⟩ ∧
    destruct (constructRaw 0 5 []).1 [PtrDetails.mk 1 5 false 0]
        = some ⟨[], [(5, false)], true⟩ := by
  refine ⟨?_, ?_, by decide, by decide, by decide⟩
  · intro size t R hfind
    simp only [constructRaw, hfind]
  · intro size t R d hfind hb
    constructor
    · have hred : (constructRaw size t R).2
          = updateFirst PtrDetails.upRefCount R t := by
        simp only [constructRaw, hfind]
      rw [hred, findPtrInfo_updateFirst_self upRefCount_memPtr, hfind]
      have : PtrDetails.upRefCount d = { d with refCount := d.refCount + 1 } := by
        cases d
        simp only [PtrDetails.upRefCount] at *
        rw [uinc_eq hb]
      rw [show Option.map PtrDetails.upRefCount (some d)
          = some (PtrDetails.upRefCount d) from rfl, this]
    · have hred : (constructRaw size t R).2
          = updateFirst PtrDetails.upRefCount R t := by
        simp only [constructRaw, hfind]
      rw [hred, updateFirst_map_memPtr upRefCount_memPtr]

theorem C7_witness :
    (constructRaw 0 9 []).2 = [] ++ [PtrDetails.make 9 0] ∧
    findPtrInfo (constructRaw 0 9 [PtrDetails.mk 1 9 false 0]).2 9
      = some (PtrDetails.mk 2 9 false 0) := by
  have h := C7_register_increment_or_insert
  refine ⟨h.1 0 9 [] (by decide), ?_⟩
  exact (h.2.1 0 9 [PtrDetails.mk 1 9 false 0] (PtrDetails.mk 1 9 false 0)
    (by decide) (by decide)).1

/-- C3 counterexample: with an empty registry, the release step of
`operator=(T*)` finds no record for the handle's current address 5, yet
the assignment completes normally instead of failing fast: it silently
skips the decrement and proceeds to register the new address 7, update
the handle, and return the pointer. -/
theorem C3_counterexample :
    findPtrInfo [] 5 = none ∧
    assignRaw 0 ⟨5, false, 0⟩ 7 []
      = (⟨7, false, 0⟩, 7, [PtrDetails.mk 1 7 false 0]) := by
  decide

/-- C3 amended: when no record exists for the relevant address, the
copy constructor and the destructor dereference the end iterator with
no check (undefined behaviour, modeled as the error outcome `none`; the
code contains no explicit error or abort), while the release step of
`operator=(T*)` checks for absence and silently proceeds: the decrement
is skipped and the operation still registers the new address and
returns it. -/
theorem C3_missing_record_behaviour (ob : Handle) (size t : Nat)
    (R : List PtrDetails) (hob : findPtrInfo R ob.addr = none) :
    copyConstruct ob R = none ∧
    destruct ob R = none ∧
    (assignRaw size ob t R).2.1 = t ∧
    t ∈ (assignRaw size ob t R).2.2.map PtrDetails.memPtr := by
  refine ⟨by simp [copyConstruct, hob], by simp [destruct, hob], ?_, ?_⟩
  · cases hfind2 : findPtrInfo R t with
    | none => simp only [assignRaw, hob, hfind2]
    | some d2 => simp only [assignRaw, hob, hfind2]
  · cases hfind2 : findPtrInfo R t with
    | none =>
      simp only [assignRaw, hob, hfind2]
      rw [List.map_append]
      refine List.mem_append.mpr (Or.inr ?_)
      simp [make_memPtr]
    | some d2 =>
      simp only [assignRaw, hob, hfind2]
      rw [updateFirst_map_memPtr upRefCount_memPtr]
      obtain ⟨hdR, hdm⟩ := findPtrInfo_some hfind2
      exact List.mem_map.mpr ⟨d2, hdR, hdm⟩

theorem C3_witness :
    copyConstruct ⟨3, false, 0⟩ [] = none ∧
    destruct ⟨3, false, 0⟩ [] = none ∧
    (assignRaw 0 ⟨3, false, 0⟩ 4 []).2.1 = 4 ∧
    4 ∈ (assignRaw 0 ⟨3, false, 0⟩ 4 []).2.2.map PtrDetails.memPtr :=
  C3_missing_record_behaviour ⟨3, false, 0⟩ 0 4 [] (by decide)

theorem dm_refCount (t size : Nat) :
    (PtrDetails.downRefCount (PtrDetails.make t size)).refCount = 0 := by
  rw [downRefCount_refCount, make_refCount]
  decide

theorem dm_memPtr (t size : Nat) :
    (PtrDetails.downRefCount (PtrDetails.make t size)).memPtr = t := by
  rw [downRefCount_memPtr, make_memPtr]

theorem dm_isArray (t size : Nat) :
    (PtrDetails.downRefCount (PtrDetails.make t size)).isArray
      = decide (size > 0) := by
  rw [downRefCount_isArray, make_isArray]

/-- Destroying the handle freshly constructed over an unregistered
address decrements the record just emplaced and sweeps. -/
theorem destruct_fresh (size t : Nat) (R : List PtrDetails)
    (h0 : findPtrInfo R t = none) :
    destruct (constructRaw size t R).1 (constructRaw size t R).2
      = some (collect
          (R ++ [PtrDetails.downRefCount (PtrDetails.make t size)])) := by
  have h0m : t ∉ R.map PtrDetails.memPtr := findPtrInfo_eq_none.mp h0
  have hcons : (constructRaw size t R).2 = R ++ [PtrDetails.make t size] := by
    simp only [constructRaw, h0]
  have haddr : (constructRaw size t R).1.addr = t := by
    simp only [constructRaw]
  have hfind : findPtrInfo (R ++ [PtrDetails.make t size]) t
      = some (PtrDetails.make t size) := by
    rw [findPtrInfo_append _ _ _ h0m]
    simp [findPtrInfo, List.find?, make_memPtr]
  have hupd : updateFirst PtrDetails.downRefCount
      (R ++ [PtrDetails.make t size]) t
      = R ++ [PtrDetails.downRefCount (PtrDetails.make t size)] := by
    rw [updateFirst_append_right h0m]
    simp [updateFirst, make_memPtr]
  simp only [destruct, hcons, haddr, hfind, hupd]

/-- C4 counterexample: constructing a handle over the null address 0 in
the empty registry creates an allocation record for address 0 with
refcount 1 — a record for the null address exists in the registry and a
refcount was set, contrary to the claim that a null handle has no
record and participates in no counting. -/
theorem C4_counterexample :
    (constructRaw 0 0 []).2 = [PtrDetails.mk 1 0 false 0] ∧
    findPtrInfo (constructRaw 0 0 []).2 0
      = some (PtrDetails.mk 1 0 false 0) := by
  decide

/-- C4 amended: a handle over the null address participates in
reference counting exactly like any other address: constructing it when
the registry has no record for 0 appends a record for address 0 with
refcount 1, and destroying that handle decrements the record to zero
and the destructor's sweep removes it, issuing a deallocation call for
address 0. -/
theorem C4_null_handle_is_counted (size : Nat) (R : List PtrDetails)
    (h0 : findPtrInfo R 0 = none) :
    (constructRaw size 0 R).2 = R ++ [PtrDetails.make 0 size] ∧
    ∃ res, destruct (constructRaw size 0 R).1 (constructRaw size 0 R).2
        = some res ∧
      (0, decide (size > 0)) ∈ res.freed ∧
      findPtrInfo res.registry 0 = none := by
  have h0m : (0 : Nat) ∉ R.map PtrDetails.memPtr := findPtrInfo_eq_none.mp h0
  refine ⟨by simp only [constructRaw, h0],
    collect (R ++ [PtrDetails.downRefCount (PtrDetails.make 0 size)]),
    destruct_fresh size 0 R h0, ?_, ?_⟩
  · rw [collect_freed]
    refine List.mem_map.mpr
      ⟨PtrDetails.downRefCount (PtrDetails.make 0 size),
        List.mem_filter.mpr
          ⟨List.mem_append.mpr (Or.inr (List.mem_singleton.mpr rfl)), ?_⟩, ?_⟩
    · simp [PtrDetails.zeroRefCount, dm_refCount]
    · rw [dm_memPtr, dm_isArray]
  · rw [collect_registry]
    refine findPtrInfo_eq_none.mpr ?_
    intro hmem
    obtain ⟨d, hdf, hdm⟩ := List.mem_map.mp hmem
    obtain ⟨hdmem, hdnz⟩ := List.mem_filter.mp hdf
    rcases List.mem_append.mp hdmem with hdR | hddm
    · exact h0m (List.mem_map.mpr ⟨d, hdR, hdm⟩)
    · simp only [List.mem_singleton] at hddm
      subst hddm
      simp [PtrDetails.zeroRefCount, dm_refCount] at hdnz

theorem C4_amended_witness :
    (constructRaw 0 0 []).2 = [] ++ [PtrDetails.make 0 0] ∧
    ∃ res, destruct (constructRaw 0 0 []).1 (constructRaw 0 0 []).2
        = some res ∧
      (0, decide ((0 : Nat) > 0)) ∈ res.freed ∧
      findPtrInfo res.registry 0 = none :=
  C4_null_handle_is_counted 0 [] (by decide)

theorem collectResult_eq {c : CollectResult} {r : List PtrDetails}
    {f : List (Nat × Bool)} {m : Bool} (h1 : c.registry = r)
    (h2 : c.freed = f) (h3 : c.memfreed = m) : c = ⟨r, f, m⟩ := by
  cases c
  dsimp only at h1 h2 h3
  subst h1
  subst h2
  subst h3
  rfl

theorem dm_zero (t size : Nat) :
    (PtrDetails.downRefCount (PtrDetails.make t size)).zeroRefCount = true := by
  show ((PtrDetails.downRefCount (PtrDetails.make t size)).refCount == 0) = true
  rw [dm_refCount]
  rfl

/-- C10: the body of the no-argument constructor `Pointer() {
Pointer(NULL); }` constructs and immediately destroys a separate
temporary handle over the null address — the temporary registers a
record for address 0, its destruction decrements that record back to
zero and sweeps it away with exactly one deallocation call for 0 —
while the object actually being constructed keeps whatever
indeterminate contents `g` its never-assigned members already held: the
resulting handle is `g` itself, for every `g`.  (Stated over a registry
with no record for 0 and no record already at refcount zero, so the
temporary's round trip is the only visible effect.) -/
theorem C10_default_ctor_uninitialized (size : Nat) (g : Handle)
    (R : List PtrDetails) (h0 : findPtrInfo R 0 = none)
    (hnz : ∀ d ∈ R, d.refCount ≠ 0) :
    defaultCtor size g R = (g, some ⟨R, [(0, decide (size > 0))], true⟩) := by
  have hdest := destruct_fresh size 0 R h0
  have hreg : (collect (R ++ [PtrDetails.downRefCount
      (PtrDetails.make 0 size)])).registry = R := by
    rw [collect_registry, List.filter_append]
    have h1 : R.filter (fun d => !d.zeroRefCount) = R :=
      List.filter_eq_self.mpr fun d hd => by
        simp only [PtrDetails.zeroRefCount, Bool.not_eq_eq_eq_not,
          Bool.not_true, beq_eq_false_iff_ne]
        exact hnz d hd
    have h2 : [PtrDetails.downRefCount (PtrDetails.make 0 size)].filter
        (fun d => !d.zeroRefCount) = [] :=
      List.filter_eq_nil_iff.mpr fun d hd => by
        simp only [List.mem_singleton] at hd
        subst hd
        rw [dm_zero]
        decide
    rw [h1, h2, List.append_nil]
  have hfreed : (collect (R ++ [PtrDetails.downRefCount
      (PtrDetails.make 0 size)])).freed = [(0, decide (size > 0))] := by
    rw [collect_freed, List.filter_append]
    have h1 : R.filter (fun d => d.zeroRefCount) = [] :=
      List.filter_eq_nil_iff.mpr fun d hd => by
        simp only [PtrDetails.zeroRefCount, beq_iff_eq]
        exact hnz d hd
    have h2 : [PtrDetails.downRefCount (PtrDetails.make 0 size)].filter
        (fun d => d.zeroRefCount)
        = [PtrDetails.downRefCount (PtrDetails.make 0 size)] :=
      List.filter_eq_self.mpr fun d hd => by
        simp only [List.mem_singleton] at hd
        subst hd
        exact dm_zero 0 size
    rw [h1, h2]
    simp only [List.nil_append, List.map_cons, List.map_nil]
    rw [dm_memPtr, dm_isArray]
  have hmf : (collect (R ++ [PtrDetails.downRefCount
      (PtrDetails.make 0 size)])).memfreed = true := by
    rw [collect_memfreed, List.any_append]
    have h2 : [PtrDetails.downRefCount (PtrDetails.make 0 size)].any
        (fun d => d.zeroRefCount) = true := by
      simp only [List.any_cons, List.any_nil, Bool.or_false]
      exact dm_zero 0 size
    rw [h2, Bool.or_true]
  have hc : collect (R ++ [PtrDetails.downRefCount (PtrDetails.make 0 size)])
      = ⟨R, [(0, decide (size > 0))], true⟩ :=
    collectResult_eq hreg hfreed hmf
  simp only [defaultCtor]
  rw [hdest, hc]

theorem C10_witness :
    defaultCtor 0 ⟨7, true, 3⟩ []
      = (⟨7, true, 3⟩, some ⟨[], [(0, false)], true⟩) := by
  have h := C10_default_ctor_uninitialized 0 ⟨7, true, 3⟩ [] (by decide)
    (by intro d hd; simp at hd)
  exact h
